import Mathlib

/-!
Shallow embedding of `torchtune/modules/peft/lora.py` (the `LoRALinear`
layer: LoRA with optional DoRA and optional NF4-compressed base weight),
together with theorems settling the spec claims about it.

Tensors are modelled over `ℝ`: a weight of shape `out×in` is a
`Matrix (Fin outDim) (Fin inDim) ℝ`, a vector of length `n` is
`Fin n → ℝ`.  The NF4 compression codec lives in the external `torchao`
library; it is modelled abstractly as a value transformation (the
observable effect of `to_nf4` followed by `dequantize`), universally
quantified in every theorem that touches it.  Dropout randomness is
modelled by an explicit keep-mask argument (`true` = entry kept), with
the usual `1/(1-p)` training-time rescaling of kept entries.
-/

noncomputable section

namespace TorchtuneLoRA

open Matrix

/-- Abstract model of the external NF4 compression codec (`torchao`):
`encMat`/`encVec` give the real values observed after `to_nf4` followed by
`dequantize` (a lossy round trip).  The source delegates all compression
semantics to this substrate. -/
structure NF4Enc where
  encMat : ∀ {m n : ℕ}, Matrix (Fin m) (Fin n) ℝ → Matrix (Fin m) (Fin n) ℝ
  encVec : ∀ {n : ℕ}, (Fin n → ℝ) → (Fin n → ℝ)

/-- The identity codec, used to instantiate theorems at concrete states
whose base weight is not compressed. -/
def idEnc : NF4Enc where
  encMat := fun M => M
  encVec := fun v => v

/-- State of a `LoRALinear` module (`lora.py`, `__init__`).
`weight` stores the dequantized real values of the base weight (exact for
NF4 storage: dequantizing an NF4 tensor yields the stored values).
`lora_a`/`lora_b` are the weights of the `nn.Linear` factors.
`lora_m` is the DoRA magnitude; the source allocates it only when
`use_dora` is true, so it is read only under that flag. -/
structure LoRALinear (inDim outDim rank : ℕ) where
  weight : Matrix (Fin outDim) (Fin inDim) ℝ
  bias : Option (Fin outDim → ℝ)
  alpha : ℝ
  dropout_p : ℝ
  use_dora : Bool
  use_bias : Bool
  quantize_base : Bool
  disabled : Bool
  lora_a : Matrix (Fin rank) (Fin inDim) ℝ
  lora_b : Matrix (Fin outDim) (Fin rank) ℝ
  lora_m : Fin outDim → ℝ

variable {inDim outDim rank : ℕ}

/-- `LoRALinear._create_weight_and_bias`: build the base weight (NF4-encoded
when `quantize_base`) and the optional bias; raises
`NotImplementedError` when both `use_bias` and `quantize_base` are set.
`initW`/`initBias` stand for the random `nn.Linear` draws. -/
def _create_weight_and_bias (E : NF4Enc) (use_bias quantize_base : Bool)
    (initW : Matrix (Fin outDim) (Fin inDim) ℝ) (initBias : Fin outDim → ℝ) :
    Except String (Matrix (Fin outDim) (Fin inDim) ℝ × Option (Fin outDim → ℝ)) :=
  let weight := if quantize_base then E.encMat initW else initW
  if use_bias then
    if quantize_base then
      Except.error "Quantized LoRALinear does not support bias at the moment."
    else
      Except.ok (weight, some initBias)
  else
    Except.ok (weight, none)

/-- `LoRALinear.__init__`: construct the layer.  `initW`, `initBias` stand
for the random `nn.Linear` draws, `initA` for the value of `lora_a.weight`
after the Kaiming-uniform draw of `_lora_a_init_params` (its distribution
carries no claim-relevant structure).  `_lora_b_init_params` zeroes
`lora_b.weight` and `_dora_m_init_params` sets `lora_m` to ones; the
source allocates `lora_m` only when `use_dora`, so its value is
meaningful only under that flag.  `disabled` starts false. -/
def mkLoRALinear (E : NF4Enc) (alpha dropout : ℝ)
    (use_dora use_bias quantize_base : Bool)
    (initW : Matrix (Fin outDim) (Fin inDim) ℝ) (initBias : Fin outDim → ℝ)
    (initA : Matrix (Fin rank) (Fin inDim) ℝ) :
    Except String (LoRALinear inDim outDim rank) :=
  match _create_weight_and_bias E use_bias quantize_base initW initBias with
  | Except.error e => Except.error e
  | Except.ok (w, b) =>
      Except.ok
        { weight := w
          bias := b
          alpha := alpha
          dropout_p := dropout
          use_dora := use_dora
          use_bias := use_bias
          quantize_base := quantize_base
          disabled := false
          lora_a := initA
          lora_b := 0
          lora_m := fun _ => 1 }

/-- `LoRALinear.adapter_params`: names of the trainable adapter tensors. -/
def adapter_params (s : LoRALinear inDim outDim rank) : List String :=
  let ap := ["lora_a.weight", "lora_b.weight"]
  if s.use_dora then ap ++ ["lora_m"] else ap

/-- `nn.Dropout` in training mode, with the randomness made explicit: `μ j`
is true when entry `j` is kept; kept entries are rescaled by `1/(1-p)`. -/
def dropoutApply (p : ℝ) (μ : Fin inDim → Bool) (x : Fin inDim → ℝ) :
    Fin inDim → ℝ :=
  fun j => if μ j then x j / (1 - p) else 0

/-- The combined weight `result = weight + (alpha / rank) * (lora_b.weight @
lora_a.weight)` of `_dora_weight_norm` (the stored weight already holds
dequantized values, so the `dequantize` branch is the identity here). -/
def doraCombined (s : LoRALinear inDim outDim rank) :
    Matrix (Fin outDim) (Fin inDim) ℝ :=
  s.weight + (s.alpha / (rank : ℝ)) • (s.lora_b * s.lora_a)

/-- `torch.linalg.norm(result, dim=1)`: per-row Euclidean norm of the
combined weight. -/
def doraNorm (s : LoRALinear inDim outDim rank) : Fin outDim → ℝ :=
  fun i => Real.sqrt (∑ j, (doraCombined s i j) ^ 2)

/-- `torch.clamp(norm, min=1e-6)` applied to the row norms. -/
def doraNormClamped (s : LoRALinear inDim outDim rank) : Fin outDim → ℝ :=
  fun i => max (doraNorm s i) (1e-6)

/-- `LoRALinear._dora_weight_norm`: the clamped combined-weight row norm,
re-encoded through the NF4 codec when the base weight is compressed. -/
def _dora_weight_norm (E : NF4Enc) (s : LoRALinear inDim outDim rank) :
    Fin outDim → ℝ :=
  if s.quantize_base then E.encVec (doraNormClamped s) else doraNormClamped s

/-- `LoRALinear.init_dora`: overwrite `lora_m` with `_dora_weight_norm`. -/
def init_dora (E : NF4Enc) (s : LoRALinear inDim outDim rank) :
    LoRALinear inDim outDim rank :=
  { s with lora_m := _dora_weight_norm E s }

/-- The base affine output of `forward`: `linear_nf4(x, weight)` (no bias)
when the base is compressed, `F.linear(x, weight, bias)` otherwise. -/
def baseOut (s : LoRALinear inDim outDim rank) (x : Fin inDim → ℝ) :
    Fin outDim → ℝ :=
  if s.quantize_base then s.weight.mulVec x
  else fun i => s.weight.mulVec x i + (s.bias.getD 0) i

/-- The low-rank perturbation of `forward`:
`(alpha / rank) * lora_b(lora_a(dropout(x)))`. -/
def loraOut (s : LoRALinear inDim outDim rank) (μ : Fin inDim → Bool)
    (x : Fin inDim → ℝ) : Fin outDim → ℝ :=
  fun i =>
    (s.alpha / (rank : ℝ)) *
      s.lora_b.mulVec (s.lora_a.mulVec (dropoutApply s.dropout_p μ x)) i

/-- `LoRALinear.forward` on one input vector (the last-dimension slice of
the input tensor); `μ` is the dropout keep-mask drawn for this slice.
When disabled, the base output is returned before the adapter path runs.
In the DoRA branch the detached recomputed norm divides `lora_m` and the
resulting scale multiplies `(out + lora_out)`, exactly as in the source. -/
def forward (E : NF4Enc) (s : LoRALinear inDim outDim rank)
    (μ : Fin inDim → Bool) (x : Fin inDim → ℝ) : Fin outDim → ℝ :=
  let out := baseOut s x
  if s.disabled then out
  else
    let lora_out := loraOut s μ x
    if s.use_dora then
      let weight_norm := _dora_weight_norm E s
      let mag_norm_scale := fun i => s.lora_m i / weight_norm i
      fun i => (out i + lora_out i) * mag_norm_scale i
    else fun i => out i + lora_out i

/-- `forward` on a batched input `(..., in_dim)`: the leading batch
dimensions are collapsed into one index type `ι`; each batch row gets its
own dropout mask, and the per-output DoRA scale (shape `(1, out)` after
`.view(1, -1)`) broadcasts across all batch rows. -/
def forwardBatch (E : NF4Enc) (s : LoRALinear inDim outDim rank) (ι : Type)
    (μ : ι → Fin inDim → Bool) (X : ι → Fin inDim → ℝ) :
    ι → Fin outDim → ℝ :=
  fun b => forward E s (μ b) (X b)

/-! ### Spec-side definitions (for the refinement claims) -/

/-- The combined-weight norm computation as the spec words it: W is the
base weight decompressed to full precision (the stored values), ΔW is
`(alpha / rank) · (B @ A)`, R = W + ΔW; per output row take the Euclidean
norm (the `L²` norm of the row vector) across the input dimension, clamp
every entry to a minimum of `1e-6`, and re-encode the vector into the
compressed format when the base weight is stored compressed. -/
def specCombinedNorm (E : NF4Enc) (s : LoRALinear inDim outDim rank) :
    Fin outDim → ℝ :=
  let W := s.weight
  let deltaW := (s.alpha / (rank : ℝ)) • (s.lora_b * s.lora_a)
  let R := W + deltaW
  let v := fun i => ‖(WithLp.equiv 2 (Fin inDim → ℝ)).symm (R i)‖
  let clamped := fun i => max (v i) (1e-6 : ℝ)
  if s.quantize_base then E.encVec clamped else clamped

/-- Per-row Euclidean norm of the base weight alone (the value the spec
says the magnitude vector takes after `init_dora` with factor B zero). -/
def baseRowNorm (s : LoRALinear inDim outDim rank) : Fin outDim → ℝ :=
  fun i => Real.sqrt (∑ j, (s.weight i j) ^ 2)

/-! ### Concrete states used to instantiate the theorems -/

/-- Base weight of the end-to-end example in the spec. -/
def exW : Matrix (Fin 2) (Fin 4) ℝ := !![1, 0, 0, 0; 0, 1, 0, 0]

/-- Factor A of the end-to-end example in the spec. -/
def exA : Matrix (Fin 1) (Fin 4) ℝ := !![1, 0, 0, 0]

/-- The layer of the end-to-end example: `in_dim=4, out_dim=2, rank=1,
alpha=1, dropout=0`, DoRA off, bias off, compression off, post-init. -/
def s8 : LoRALinear 4 2 1 :=
  { weight := exW
    bias := none
    alpha := 1
    dropout_p := 0
    use_dora := false
    use_bias := false
    quantize_base := false
    disabled := false
    lora_a := exA
    lora_b := 0
    lora_m := fun _ => 1 }

/-- A freshly constructed 1×1 DoRA-enabled layer with base weight `[[2]]`. -/
def sD : LoRALinear 1 1 1 :=
  { weight := !![2]
    bias := none
    alpha := 1
    dropout_p := 0
    use_dora := true
    use_bias := false
    quantize_base := false
    disabled := false
    lora_a := !![1]
    lora_b := 0
    lora_m := fun _ => 1 }

/-- The example layer after manually setting factor B to `[[1],[1]]`. -/
def s8B : LoRALinear 4 2 1 :=
  { s8 with lora_b := !![1; 1] }

/-- The example layer with the disabled flag set. -/
def s8dis : LoRALinear 4 2 1 :=
  { s8 with disabled := true }

/-- The disabled example layer with different adapter parameters: other
factor A, other factor B, other dropout probability, other magnitude. -/
def s8disAlt : LoRALinear 4 2 1 :=
  { s8dis with
    lora_a := !![5, 6, 7, 8]
    lora_b := !![3; 4]
    dropout_p := 1 / 2
    lora_m := fun _ => 9 }

/-- A 1×1 DoRA-enabled layer whose base weight is the zero matrix. -/
def sZ : LoRALinear 1 1 1 :=
  { weight := !![0]
    bias := none
    alpha := 1
    dropout_p := 0
    use_dora := true
    use_bias := false
    quantize_base := false
    disabled := false
    lora_a := !![1]
    lora_b := 0
    lora_m := fun _ => 1 }

/-! ### Claim theorems -/

/-- C9: for every layer state, `adapter_params` returns exactly the
factor-A weight name and the factor-B weight name, with the magnitude
vector's name appended if and only if DoRA is enabled. -/
theorem claim_C9 (s : LoRALinear inDim outDim rank) :
    (s.use_dora = true →
      adapter_params s = ["lora_a.weight", "lora_b.weight", "lora_m"]) ∧
    (s.use_dora = false →
      adapter_params s = ["lora_a.weight", "lora_b.weight"]) := by
  unfold adapter_params
  cases h : s.use_dora <;> simp

/-- Witness for C9 at the example state (DoRA off). -/
theorem claim_C9_witness :
    adapter_params s8 = ["lora_a.weight", "lora_b.weight"] :=
  (claim_C9 s8).2 rfl

/-- C10: `init_dora` mutates only `lora_m`: the base weight, the bias,
factor A, factor B, alpha, the dropout probability, the disabled flag and
all configuration flags are unchanged, for every DoRA-enabled state. -/
theorem claim_C10 (E : NF4Enc) (s : LoRALinear inDim outDim rank)
    (hdora : s.use_dora = true) :
    (init_dora E s).weight = s.weight ∧
    (init_dora E s).bias = s.bias ∧
    (init_dora E s).lora_a = s.lora_a ∧
    (init_dora E s).lora_b = s.lora_b ∧
    (init_dora E s).alpha = s.alpha ∧
    (init_dora E s).dropout_p = s.dropout_p ∧
    (init_dora E s).disabled = s.disabled ∧
    (init_dora E s).use_dora = s.use_dora ∧
    (init_dora E s).use_bias = s.use_bias ∧
    (init_dora E s).quantize_base = s.quantize_base :=
  ⟨rfl, rfl, rfl, rfl, rfl, rfl, rfl, rfl, rfl, rfl⟩

/-- Witness for C10 at a concrete DoRA-enabled state. -/
theorem claim_C10_witness :
    (init_dora idEnc sD).weight = sD.weight ∧
    (init_dora idEnc sD).bias = sD.bias ∧
    (init_dora idEnc sD).lora_a = sD.lora_a ∧
    (init_dora idEnc sD).lora_b = sD.lora_b ∧
    (init_dora idEnc sD).alpha = sD.alpha ∧
    (init_dora idEnc sD).dropout_p = sD.dropout_p ∧
    (init_dora idEnc sD).disabled = sD.disabled ∧
    (init_dora idEnc sD).use_dora = sD.use_dora ∧
    (init_dora idEnc sD).use_bias = sD.use_bias ∧
    (init_dora idEnc sD).quantize_base = sD.quantize_base :=
  claim_C10 idEnc sD rfl

/-- C5: constructing the layer with both the compression flag and the bias
flag set fails with the unsupported-configuration error, and no layer
state (hence no registered parameter) is produced. -/
theorem claim_C5 (E : NF4Enc) (alpha dropout : ℝ) (use_dora : Bool)
    (initW : Matrix (Fin outDim) (Fin inDim) ℝ) (initBias : Fin outDim → ℝ)
    (initA : Matrix (Fin rank) (Fin inDim) ℝ) :
    mkLoRALinear E alpha dropout use_dora true true initW initBias initA =
      Except.error "Quantized LoRALinear does not support bias at the moment." ∧
    ∀ s : LoRALinear inDim outDim rank,
      mkLoRALinear E alpha dropout use_dora true true initW initBias initA ≠
        Except.ok s := by
  refine ⟨rfl, fun s h => ?_⟩
  simp [mkLoRALinear, _create_weight_and_bias] at h

/-- C7: for every layer state — any base weight, any factor values A and B,
including all-zero rows of the combined weight — every entry of the
computed (clamped) DoRA norm vector is at least `1e-6`; when the base
weight is not compressed this clamped vector is exactly what
`_dora_weight_norm` returns (when it is compressed, the external NF4
codec re-encodes it). -/
theorem claim_C7 (E : NF4Enc) (s : LoRALinear inDim outDim rank) :
    (∀ i, (1e-6 : ℝ) ≤ doraNormClamped s i) ∧
    (s.quantize_base = false → _dora_weight_norm E s = doraNormClamped s) := by
  refine ⟨fun i => le_max_right _ _, fun hq => ?_⟩
  simp [_dora_weight_norm, hq]

/-- Witness for C7 at a concrete uncompressed state with an all-zero row. -/
theorem claim_C7_witness :
    (1e-6 : ℝ) ≤ doraNormClamped sZ 0 ∧
    _dora_weight_norm idEnc sZ = doraNormClamped sZ :=
  ⟨(claim_C7 idEnc sZ).1 0, (claim_C7 idEnc sZ).2 rfl⟩

/-- C4: with the disabled flag set, the forward output equals the plain
base affine transform, and two runs on the same input whose states agree
on everything except factor A, factor B, the dropout probability and the
magnitude vector (and whose dropout masks may differ arbitrarily) produce
identical outputs — so the output is independent of the adapter
parameters and no dropout affects it. -/
theorem claim_C4 (E : NF4Enc) (s1 s2 : LoRALinear inDim outDim rank)
    (hd1 : s1.disabled = true) (hd2 : s2.disabled = s1.disabled)
    (hw : s2.weight = s1.weight) (hb : s2.bias = s1.bias)
    (ha : s2.alpha = s1.alpha) (hdora : s2.use_dora = s1.use_dora)
    (hub : s2.use_bias = s1.use_bias)
    (hq : s2.quantize_base = s1.quantize_base)
    (μ1 μ2 : Fin inDim → Bool) (x : Fin inDim → ℝ) :
    forward E s1 μ1 x = baseOut s1 x ∧
    forward E s2 μ2 x = forward E s1 μ1 x := by
  have h1 : forward E s1 μ1 x = baseOut s1 x := by
    simp [forward, hd1]
  have h2 : forward E s2 μ2 x = baseOut s2 x := by
    simp [forward, hd2, hd1]
  have hbase : baseOut s2 x = baseOut s1 x := by
    simp [baseOut, hw, hb, hq]
  exact ⟨h1, by rw [h2, hbase, h1]⟩

/-- Witness for C4: two concrete disabled states that differ exactly in
factor A, factor B, the dropout probability and the magnitude vector. -/
theorem claim_C4_witness :
    forward idEnc s8dis (fun _ => true) (fun _ => 1) =
      baseOut s8dis (fun _ => 1) ∧
    forward idEnc s8disAlt (fun _ => false) (fun _ => 1) =
      forward idEnc s8dis (fun _ => true) (fun _ => 1) :=
  claim_C4 idEnc s8dis s8disAlt rfl rfl rfl rfl rfl rfl rfl rfl
    (fun _ => true) (fun _ => false) (fun _ => 1)

/-- C2: with DoRA enabled and the layer not disabled, every batch row of
the forward output is (base output + low-rank perturbation), formed as a
sum first, then multiplied elementwise by the per-output scale
`lora_m / _dora_weight_norm`; the same scale applies to every batch row. -/
theorem claim_C2 (E : NF4Enc) (s : LoRALinear inDim outDim rank)
    (hdora : s.use_dora = true) (hdis : s.disabled = false)
    (ι : Type) (μ : ι → Fin inDim → Bool) (X : ι → Fin inDim → ℝ) (b : ι) :
    forwardBatch E s ι μ X b =
      fun i => (baseOut s (X b) i + loraOut s (μ b) (X b) i) *
        (s.lora_m i / _dora_weight_norm E s i) := by
  simp [forwardBatch, forward, hdora, hdis]

/-- Witness for C2 at a concrete DoRA-enabled, non-disabled state with a
one-row batch. -/
theorem claim_C2_witness :
    forwardBatch idEnc sD (Fin 1) (fun _ _ => true) (fun _ _ => 1) 0 =
      fun i => (baseOut sD (fun _ => 1) i + loraOut sD (fun _ => true) (fun _ => 1) i) *
        (sD.lora_m i / _dora_weight_norm idEnc sD i) :=
  claim_C2 idEnc sD rfl rfl (Fin 1) (fun _ _ => true) (fun _ _ => 1) 0

/-- C3: for every layer state, `_dora_weight_norm` computes exactly the
spec's combined-weight norm: the per-row Euclidean norm of
`W + (alpha/rank)·(B@A)` clamped below at `1e-6`, re-encoded into the
compressed format exactly when the base weight is stored compressed. -/
theorem claim_C3 (E : NF4Enc) (s : LoRALinear inDim outDim rank) :
    _dora_weight_norm E s = specCombinedNorm E s := by
  have key : doraNormClamped s = fun i =>
      max (‖(WithLp.equiv 2 (Fin inDim → ℝ)).symm
        ((s.weight + (s.alpha / (rank : ℝ)) • (s.lora_b * s.lora_a)) i)‖)
        (1e-6 : ℝ) := by
    funext i
    unfold doraNormClamped doraNorm doraCombined
    rw [EuclideanSpace.norm_eq]
    simp [Real.norm_eq_abs, sq_abs]
  simp only [_dora_weight_norm, specCombinedNorm]
  rw [key]

/-- Any state produced by a successful construction has factor B zero,
the disabled flag clear, and the DoRA flag as requested. -/
theorem mk_ok_fields (E : NF4Enc) (alpha dropout : ℝ)
    (use_dora use_bias quantize_base : Bool)
    (initW : Matrix (Fin outDim) (Fin inDim) ℝ) (initBias : Fin outDim → ℝ)
    (initA : Matrix (Fin rank) (Fin inDim) ℝ)
    (s : LoRALinear inDim outDim rank)
    (hs : mkLoRALinear E alpha dropout use_dora use_bias quantize_base
        initW initBias initA = Except.ok s) :
    s.lora_b = 0 ∧ s.disabled = false ∧ s.use_dora = use_dora := by
  unfold mkLoRALinear at hs
  cases hcw : _create_weight_and_bias E use_bias quantize_base initW initBias with
  | error e =>
      rw [hcw] at hs
      exact absurd hs (by simp)
  | ok wb =>
      obtain ⟨w, b⟩ := wb
      rw [hcw] at hs
      simp only [Except.ok.injEq] at hs
      rw [← hs]
      exact ⟨rfl, rfl, rfl⟩

/-- C1 (amended): for every valid construction (positive rank, not both
bias and compression), the low-rank perturbation of the freshly
constructed layer is the zero tensor for every input and every dropout
mask (factor B is zero-initialized); when the DoRA flag is off, the
forward output moreover equals the base affine output exactly.  (With the
DoRA flag on, the fresh all-ones magnitude divided by the weight norm
rescales the base output, so forward–base equality fails there; see the
counterexample.) -/
theorem claim_C1 (E : NF4Enc) (alpha dropout : ℝ)
    (use_dora use_bias quantize_base : Bool)
    (hrank : 0 < rank)
    (hvalid : ¬(use_bias = true ∧ quantize_base = true))
    (initW : Matrix (Fin outDim) (Fin inDim) ℝ) (initBias : Fin outDim → ℝ)
    (initA : Matrix (Fin rank) (Fin inDim) ℝ)
    (s : LoRALinear inDim outDim rank)
    (hs : mkLoRALinear E alpha dropout use_dora use_bias quantize_base
        initW initBias initA = Except.ok s)
    (μ : Fin inDim → Bool) (x : Fin inDim → ℝ) :
    loraOut s μ x = 0 ∧
    (use_dora = false → forward E s μ x = baseOut s x) := by
  obtain ⟨hb0, hdis, hdora⟩ := mk_ok_fields E alpha dropout use_dora use_bias
    quantize_base initW initBias initA s hs
  have hzero : loraOut s μ x = 0 := by
    funext i
    simp [loraOut, hb0, Matrix.zero_mulVec]
  refine ⟨hzero, fun hud => ?_⟩
  have hud2 : s.use_dora = false := hdora.trans hud
  funext i
  simp [forward, hdis, hud2, congrFun hzero i]

/-- Witness for C1 at the concrete example construction (DoRA off). -/
theorem claim_C1_witness :
    loraOut s8 (fun _ => true) ![1, 1, 1, 1] = 0 ∧
    (false = false →
      forward idEnc s8 (fun _ => true) ![1, 1, 1, 1] =
        baseOut s8 ![1, 1, 1, 1]) :=
  claim_C1 idEnc 1 0 false false false (by norm_num) (by simp) exW
    (fun _ => 0) exA s8 rfl (fun _ => true) ![1, 1, 1, 1]

/-- The combined weight of the fresh DoRA example state is its base
weight (factor B is zero). -/
theorem sD_comb : doraCombined sD = !![2] := by
  funext i j
  fin_cases i
  fin_cases j
  simp [doraCombined, sD]

/-- The DoRA weight norm of the fresh DoRA example state is 2. -/
theorem sD_norm : _dora_weight_norm idEnc sD = fun _ => 2 := by
  have hDN : doraNorm sD = fun _ => (2 : ℝ) := by
    funext i
    unfold doraNorm
    rw [sD_comb]
    obtain rfl := Subsingleton.elim i 0
    have hsum : (∑ j : Fin 1, ((!![2] : Matrix (Fin 1) (Fin 1) ℝ) 0 j) ^ 2) =
        (2 : ℝ) ^ 2 := by
      rw [Fin.sum_univ_one]
      norm_num
    rw [hsum, Real.sqrt_sq (by norm_num : (0 : ℝ) ≤ 2)]
  have hclamp : doraNormClamped sD = fun _ => (2 : ℝ) := by
    funext i
    unfold doraNormClamped
    rw [congrFun hDN i]
    exact max_eq_left (by norm_num)
  unfold _dora_weight_norm
  rw [hclamp]
  simp [sD]

/-- C1 counterexample: the freshly constructed 1×1 DoRA layer with base
weight `[[2]]` has forward output `[1]` on input `[1]`, while the base
affine output is `[2]`: immediately after a DoRA-enabled construction the
forward output does not equal the base output. -/
theorem claim_C1_counterexample :
    mkLoRALinear idEnc 1 0 true false false !![2] (fun _ => 0) !![1] =
      Except.ok sD ∧
    forward idEnc sD (fun _ => true) (fun _ => 1) ≠ baseOut sD (fun _ => 1) := by
  refine ⟨rfl, fun h => ?_⟩
  have hbase : baseOut sD (fun _ => 1) = fun _ => 2 := by
    funext i
    fin_cases i
    simp [baseOut, sD, Matrix.mulVec, Matrix.dotProduct, Fin.sum_univ_one]
  have hlora : loraOut sD (fun _ => true) (fun _ => 1) = 0 := by
    funext i
    simp [loraOut, sD, Matrix.zero_mulVec]
  have hfwd : forward idEnc sD (fun _ => true) (fun _ => 1) = fun _ => 1 := by
    funext i
    have hmain : forward idEnc sD (fun _ => true) (fun _ => 1) i =
        (baseOut sD (fun _ => 1) i + loraOut sD (fun _ => true) (fun _ => 1) i) *
          (sD.lora_m i / _dora_weight_norm idEnc sD i) := by
      simp [forward, show sD.disabled = false from rfl,
        show sD.use_dora = true from rfl]
    rw [hmain, congrFun hbase i, congrFun hlora i, congrFun sD_norm i]
    show ((2 : ℝ) + 0) * ((1 : ℝ) / 2) = 1
    norm_num
  have h0 := congrFun h 0
  rw [congrFun hfwd 0, congrFun hbase 0] at h0
  norm_num at h0

/-- C6 (amended): for every DoRA-enabled layer whose factor B is still all
zeros, after `init_dora` the magnitude vector equals the per-row
Euclidean norm of the base weight alone clamped below at `1e-6`,
re-encoded into the compressed format when the base weight is stored
compressed.  (Without the clamp the claim fails on an all-zero row; see
the counterexample.) -/
theorem claim_C6 (E : NF4Enc) (s : LoRALinear inDim outDim rank)
    (hdora : s.use_dora = true) (hB : s.lora_b = 0) :
    (init_dora E s).lora_m =
      if s.quantize_base then
        E.encVec (fun i => max (baseRowNorm s i) (1e-6 : ℝ))
      else fun i => max (baseRowNorm s i) (1e-6 : ℝ) := by
  have hcomb : doraCombined s = s.weight := by
    unfold doraCombined
    rw [hB]
    simp
  have hclamp : doraNormClamped s = fun i => max (baseRowNorm s i) (1e-6 : ℝ) := by
    funext i
    unfold doraNormClamped doraNorm baseRowNorm
    rw [hcomb]
  show _dora_weight_norm E s = _
  unfold _dora_weight_norm
  rw [hclamp]

/-- Witness for C6 at the concrete DoRA-enabled state with factor B zero. -/
theorem claim_C6_witness :
    (init_dora idEnc sD).lora_m =
      if sD.quantize_base then
        idEnc.encVec (fun i => max (baseRowNorm sD i) (1e-6 : ℝ))
      else fun i => max (baseRowNorm sD i) (1e-6 : ℝ) :=
  claim_C6 idEnc sD rfl rfl

/-- C6 counterexample: for the DoRA-enabled layer with zero base weight
and factor B zero, `init_dora` sets the magnitude entry to the clamp
floor `1e-6`, while the row norm of the base weight alone is `0`. -/
theorem claim_C6_counterexample :
    (init_dora idEnc sZ).lora_m ≠ baseRowNorm sZ := by
  intro h
  have hcomb : doraCombined sZ = 0 := by
    funext i j
    obtain rfl := Subsingleton.elim i 0
    obtain rfl := Subsingleton.elim j 0
    simp [doraCombined, sZ]
  have hL : (init_dora idEnc sZ).lora_m 0 = (1e-6 : ℝ) := by
    show _dora_weight_norm idEnc sZ 0 = (1e-6 : ℝ)
    have hnorm : doraNorm sZ 0 = 0 := by
      unfold doraNorm
      rw [hcomb]
      simp
    unfold _dora_weight_norm
    rw [show sZ.quantize_base = false from rfl]
    simp only [Bool.false_eq_true, if_false]
    unfold doraNormClamped
    rw [hnorm]
    exact max_eq_right (by norm_num)
  have hR : baseRowNorm sZ 0 = 0 := by
    unfold baseRowNorm
    have hsum : (∑ j : Fin 1, (sZ.weight 0 j) ^ 2) = 0 := by
      rw [Fin.sum_univ_one]
      norm_num [sZ]
    rw [hsum, Real.sqrt_zero]
  have h0 := congrFun h 0
  rw [hL, hR] at h0
  norm_num at h0

/-- C8: the spec's end-to-end example.  With `in_dim=4, out_dim=2,
rank=1, alpha=1, dropout=0`, DoRA/bias/compression off, base weight
`[[1,0,0,0],[0,1,0,0]]`, factor A `[[1,0,0,0]]`, construction yields
factor B `[[0],[0]]` and the forward output on `[1,1,1,1]` is `[1,1]`;
after setting factor B to `[[1],[1]]`, the perturbation on that input is
`[1,1]` and the forward output is `[2,2]`. -/
theorem claim_C8 :
    mkLoRALinear idEnc 1 0 false false false exW (fun _ => 0) exA =
      Except.ok s8 ∧
    forward idEnc s8 (fun _ => true) ![1, 1, 1, 1] = ![1, 1] ∧
    loraOut s8B (fun _ => true) ![1, 1, 1, 1] = ![1, 1] ∧
    forward idEnc s8B (fun _ => true) ![1, 1, 1, 1] = ![2, 2] := by
  have hdrop : ∀ p : ℝ, p = 0 →
      dropoutApply p (fun _ => true) ![1, 1, 1, 1] = ![1, 1, 1, 1] := by
    intro p hp
    funext j
    simp [dropoutApply, hp]
  have hbase : baseOut s8 ![1, 1, 1, 1] = ![1, 1] := by
    funext i
    fin_cases i <;>
      simp [baseOut, s8, exW, Matrix.mulVec, Matrix.dotProduct,
        Fin.sum_univ_four]
  have hlora8 : loraOut s8 (fun _ => true) ![1, 1, 1, 1] = 0 := by
    funext i
    simp [loraOut, s8, Matrix.zero_mulVec]
  have hloraB : loraOut s8B (fun _ => true) ![1, 1, 1, 1] = ![1, 1] := by
    funext i
    have hd : dropoutApply s8B.dropout_p (fun _ => true)
        ![1, 1, 1, 1] = ![1, 1, 1, 1] := hdrop _ rfl
    have hA : (s8B.lora_a).mulVec ![1, 1, 1, 1] = fun _ => 1 := by
      funext k
      obtain rfl := Subsingleton.elim k 0
      simp [s8B, s8, exA, Matrix.mulVec, Matrix.dotProduct, Fin.sum_univ_four]
    unfold loraOut
    rw [hd, hA]
    fin_cases i <;>
      simp [s8B, s8, Matrix.mulVec, Matrix.dotProduct, Fin.sum_univ_one]
  refine ⟨rfl, ?_, hloraB, ?_⟩
  · funext i
    have : forward idEnc s8 (fun _ => true) ![1, 1, 1, 1] i =
        baseOut s8 ![1, 1, 1, 1] i + loraOut s8 (fun _ => true) ![1, 1, 1, 1] i := by
      simp [forward, show s8.disabled = false from rfl,
        show s8.use_dora = false from rfl]
    rw [this, hbase, congrFun hlora8 i]
    simp
  · funext i
    have hbaseB : baseOut s8B ![1, 1, 1, 1] = ![1, 1] := hbase
    have : forward idEnc s8B (fun _ => true) ![1, 1, 1, 1] i =
        baseOut s8B ![1, 1, 1, 1] i + loraOut s8B (fun _ => true) ![1, 1, 1, 1] i := by
      simp [forward, show s8B.disabled = false from rfl,
        show s8B.use_dora = false from rfl]
    rw [this, hbaseB, congrFun hloraB i]
    fin_cases i <;> norm_num

end TorchtuneLoRA

end
